import Mathlib

/-!
Verification development for the janebot sandbox-runner pool, message
debouncer, session store and user-facing error formatting.

Embedding conventions:
- JavaScript executes with run-to-completion semantics, so every synchronous
  section of the source between two `await` points is embedded as one Lean
  function applied atomically.
- Remote calls of the sandbox provider (`SpritesClient`) are abstracted by
  boolean oracles stating whether the call succeeds.
- Times are integer milliseconds, the unit of `Date.now()` / `getTime()`.
-/

namespace Janebot

/-- One pool slot, mirroring `interface Runner` of sprite-runners.ts:
`name`, `locked`, `ready`, `checkpointId`. -/
structure Runner where
  name : String
  locked : Bool
  ready : Bool
  checkpointId : Option String
  deriving DecidableEq

/-- The module-level mutable state of sprite-runners.ts: the `runners` array
and the FIFO `waitQueue`.  Waiters are identified by caller ids (the queue in
the source stores resolver closures; each closure belongs to one pending
`acquireRunner` caller). -/
structure PoolState where
  runners : List Runner
  waitQueue : List Nat
  deriving DecidableEq

/-- The predicate of the `runners.find((r) => r.ready && !r.locked)` scan. -/
def isAvailable (r : Runner) : Bool := r.ready && !r.locked

/-- Index of the first ready-and-unlocked runner, as found by `Array.find`. -/
def findAvail : List Runner → Option Nat
  | [] => none
  | r :: rs => if isAvailable r then some 0 else (findAvail rs).map (· + 1)

/-- In-place update of the array element at index `i` (`runners[i].f = v`). -/
def modifyAt (f : Runner → Runner) : List Runner → Nat → List Runner
  | [], _ => []
  | r :: rs, 0 => f r :: rs
  | r :: rs, n + 1 => r :: modifyAt f rs n

/-- Write the `locked` flag of the runner at index `i` (`runner.locked = b`). -/
def setLockedAt (rs : List Runner) (i : Nat) (b : Bool) : List Runner :=
  modifyAt (fun r => { r with locked := b }) rs i

/-- Write the `checkpointId` of the runner at index `i`
(`runner.checkpointId = ck`, performed by a successful rebuild). -/
def setCheckpointAt (rs : List Runner) (i : Nat) (ck : Option String) : List Runner :=
  modifyAt (fun r => { r with checkpointId := ck }) rs i

/-- Write the `ready` flag of the runner at index `i` (`runner.ready = b`). -/
def setReadyAt (rs : List Runner) (i : Nat) (b : Bool) : List Runner :=
  modifyAt (fun r => { r with ready := b }) rs i

/-- Outcome of the synchronous part of `acquireRunner` for one caller. -/
inductive AcquireResult where
  | acquired (i : Nat)
  | warmingUp
  | queued
  deriving DecidableEq

/-- The synchronous body of `acquireRunner` for caller `c`, together with the
synchronous prefix of `lockRunner` (which sets `locked := true` before its
first await): scan for a ready unlocked runner and lock it; else, when no
runner is ready at all, fail with the warming-up error without touching the
queue; else push the caller on the wait queue. -/
def acquireRunner (s : PoolState) (c : Nat) : AcquireResult × PoolState :=
  match findAvail s.runners with
  | some i => (.acquired i, { s with runners := setLockedAt s.runners i true })
  | none =>
    if s.runners.any (fun r => r.ready) then
      (.queued, { s with waitQueue := s.waitQueue ++ [c] })
    else
      (.warmingUp, s)

/-- Result of one invocation of the `release` closure of `lockRunner`:
either the closure returns (possibly handing the runner to a waiter `w`),
or it throws, leaving the state as given. -/
inductive ReleaseResult where
  | ok (handedTo : Option Nat) (s : PoolState)
  | failed (s : PoolState)
  deriving DecidableEq

/-- The `release` closure returned by `lockRunner` for the runner at index
`i`.  `restoreOk` states whether `client.restoreCheckpoint` succeeds; on a
restore failure `rebuildRunner` runs, and `rebuildOk` / `newCheckpoint` state
its outcome.  When restore and rebuild both fail, the closure rethrows before
reaching `runner.locked = false`, so the lock stays set and the queue is not
shifted.  Otherwise the lock is cleared and the wait queue shifted; a popped
waiter receives this exact runner: `next(runner)` synchronously runs the
queued closure, whose `lockRunner` sets `locked := true` again. -/
def restoredRunners (restoreOk : Bool) (ck : String) (s : PoolState) (i : Nat) :
    List Runner :=
  if restoreOk then s.runners else setCheckpointAt s.runners i (some ck)

/-- See the comment on `restoredRunners` above: the `release` closure itself.
`restoredRunners` is the runner array after the restore-or-rebuild prelude of
`release` (a successful rebuild stores the fresh checkpoint id). -/
def releaseRunner (restoreOk rebuildOk : Bool) (newCheckpoint : String)
    (s : PoolState) (i : Nat) : ReleaseResult :=
  if restoreOk || rebuildOk then
    match s.waitQueue with
    | [] =>
      .ok none
        { runners := setLockedAt (restoredRunners restoreOk newCheckpoint s i) i false
          waitQueue := [] }
    | w :: rest =>
      .ok (some w)
        { runners :=
            setLockedAt (setLockedAt (restoredRunners restoreOk newCheckpoint s i) i false) i true
          waitQueue := rest }
  else
    .failed s

/-- The catch branch of `lockRunner` (health check or synchronous rebuild
threw while acquiring): unlock the runner, shift the wait queue and hand the
runner to the next waiter, then rethrow to the acquiring caller. -/
def lockFailRecover (s : PoolState) (i : Nat) : Option Nat × PoolState :=
  match s.waitQueue with
  | [] => (none, { runners := setLockedAt s.runners i false, waitQueue := [] })
  | w :: rest =>
    (some w,
     { runners := setLockedAt (setLockedAt s.runners i false) i true, waitQueue := rest })

/-- The tail of `initRunnerWithRetry` once provisioning of slot `i`
succeeded: mark the runner ready, then shift the wait queue and hand the
runner to the waiter, who locks it. -/
def initDone (s : PoolState) (i : Nat) : Option Nat × PoolState :=
  match s.waitQueue with
  | [] => (none, { runners := setReadyAt s.runners i true, waitQueue := [] })
  | w :: rest =>
    (some w,
     { runners := setLockedAt (setReadyAt s.runners i true) i true, waitQueue := rest })

/-- Pool state together with the ghost bookkeeping of which caller currently
holds which slot.  A pair `(c, i)` enters `holds` at the instant
`acquireRunner` (or a queue hand-off) selects and locks slot `i` for caller
`c`, and leaves it when that caller's `release` clears or hands the slot on. -/
structure SysState where
  pool : PoolState
  holds : List (Nat × Nat)
  deriving DecidableEq

/-- One interleaved step of the runner-pool protocol.  Each constructor is
one synchronous section of sprite-runners.ts. -/
inductive Step : SysState → SysState → Prop where
  | acq (σ : SysState) (c i : Nat) (p : PoolState) :
      acquireRunner σ.pool c = (.acquired i, p) →
      Step σ ⟨p, (c, i) :: σ.holds⟩
  | acqQueued (σ : SysState) (c : Nat) (p : PoolState) :
      acquireRunner σ.pool c = (.queued, p) →
      Step σ ⟨p, σ.holds⟩
  | acqWarm (σ : SysState) (c : Nat) (p : PoolState) :
      acquireRunner σ.pool c = (.warmingUp, p) →
      Step σ ⟨p, σ.holds⟩
  | relIdle (σ : SysState) (c i : Nat) (a b : Bool) (ck : String) (p : PoolState) :
      (c, i) ∈ σ.holds →
      releaseRunner a b ck σ.pool i = .ok none p →
      Step σ ⟨p, σ.holds.erase (c, i)⟩
  | relHand (σ : SysState) (c i w : Nat) (a b : Bool) (ck : String) (p : PoolState) :
      (c, i) ∈ σ.holds →
      releaseRunner a b ck σ.pool i = .ok (some w) p →
      Step σ ⟨p, (w, i) :: σ.holds.erase (c, i)⟩
  | relFail (σ : SysState) (c i : Nat) (a b : Bool) (ck : String) (p : PoolState) :
      (c, i) ∈ σ.holds →
      releaseRunner a b ck σ.pool i = .failed p →
      Step σ ⟨p, σ.holds⟩
  | lockFailIdle (σ : SysState) (c i : Nat) (p : PoolState) :
      (c, i) ∈ σ.holds →
      lockFailRecover σ.pool i = (none, p) →
      Step σ ⟨p, σ.holds.erase (c, i)⟩
  | lockFailHand (σ : SysState) (c i w : Nat) (p : PoolState) :
      (c, i) ∈ σ.holds →
      lockFailRecover σ.pool i = (some w, p) →
      Step σ ⟨p, (w, i) :: σ.holds.erase (c, i)⟩
  | initIdle (σ : SysState) (i : Nat) (p : PoolState) :
      i < σ.pool.runners.length →
      (∀ c, (c, i) ∉ σ.holds) →
      initDone σ.pool i = (none, p) →
      Step σ ⟨p, σ.holds⟩
  | initHand (σ : SysState) (i w : Nat) (p : PoolState) :
      i < σ.pool.runners.length →
      (∀ c, (c, i) ∉ σ.holds) →
      initDone σ.pool i = (some w, p) →
      Step σ ⟨p, (w, i) :: σ.holds⟩

/-- Mutual-exclusion invariant: every held slot indexes a locked runner, and
no slot is held by two callers at once. -/
def Inv (σ : SysState) : Prop :=
  (∀ p ∈ σ.holds, ∃ r, σ.pool.runners.get? p.2 = some r ∧ r.locked = true) ∧
  σ.holds.Pairwise (fun p q => p.2 ≠ q.2)

instance (σ : SysState) : Decidable (Inv σ) := by
  unfold Inv
  infer_instance

theorem modifyAt_length (f : Runner → Runner) (rs : List Runner) (i : Nat) :
    (modifyAt f rs i).length = rs.length := by
  induction rs generalizing i with
  | nil => rfl
  | cons r tl ih =>
    cases i with
    | zero => rfl
    | succ n => simp [modifyAt, ih]

theorem get?_modifyAt_ne (f : Runner → Runner) (rs : List Runner) {i j : Nat}
    (h : j ≠ i) : (modifyAt f rs i).get? j = rs.get? j := by
  induction rs generalizing i j with
  | nil => rfl
  | cons r tl ih =>
    cases i with
    | zero =>
      cases j with
      | zero => exact absurd rfl h
      | succ m => rfl
    | succ n =>
      cases j with
      | zero => rfl
      | succ m =>
        simp only [modifyAt, List.get?]
        exact ih (fun hc => h (by rw [hc]))

theorem get?_modifyAt_self (f : Runner → Runner) (rs : List Runner) (i : Nat) :
    (modifyAt f rs i).get? i = (rs.get? i).map f := by
  induction rs generalizing i with
  | nil => rfl
  | cons r tl ih =>
    cases i with
    | zero => rfl
    | succ n => simpa [modifyAt] using ih n

theorem findAvail_some {rs : List Runner} {i : Nat} (h : findAvail rs = some i) :
    ∃ r, rs.get? i = some r ∧ r.ready = true ∧ r.locked = false := by
  induction rs generalizing i with
  | nil => simp [findAvail] at h
  | cons r tl ih =>
    by_cases hav : isAvailable r = true
    · simp only [findAvail, if_pos hav] at h
      obtain ⟨hr, hl⟩ := by simpa [isAvailable] using hav
      cases h
      exact ⟨r, rfl, hr, hl⟩
    · simp only [findAvail, if_neg hav, Option.map_eq_some'] at h
      obtain ⟨j, hj, rfl⟩ := h
      obtain ⟨r', hr', hready, hlock⟩ := ih hj
      exact ⟨r', hr', hready, hlock⟩

theorem findAvail_none_of_not_ready {rs : List Runner}
    (h : ∀ r ∈ rs, r.ready = false) : findAvail rs = none := by
  induction rs with
  | nil => rfl
  | cons r tl ih =>
    have hr : r.ready = false := h r (List.mem_cons_self r tl)
    have hav : isAvailable r = false := by simp [isAvailable, hr]
    simp [findAvail, hav, ih (fun x hx => h x (List.mem_cons_of_mem r hx))]

theorem acquireRunner_acquired_inv {s : PoolState} {c i : Nat} {p : PoolState}
    (h : acquireRunner s c = (.acquired i, p)) :
    findAvail s.runners = some i ∧
    p.runners = setLockedAt s.runners i true ∧ p.waitQueue = s.waitQueue := by
  unfold acquireRunner at h
  split at h
  · rename_i j hf
    rw [Prod.mk.injEq] at h
    obtain ⟨h1, h2⟩ := h
    cases h1
    exact ⟨hf, by rw [← h2], by rw [← h2]⟩
  · split at h
    · exact AcquireResult.noConfusion (congrArg Prod.fst h)
    · exact AcquireResult.noConfusion (congrArg Prod.fst h)

theorem acquireRunner_queued_inv {s : PoolState} {c : Nat} {p : PoolState}
    (h : acquireRunner s c = (.queued, p)) :
    findAvail s.runners = none ∧ s.runners.any (fun r => r.ready) = true ∧
    p.runners = s.runners ∧ p.waitQueue = s.waitQueue ++ [c] := by
  unfold acquireRunner at h
  split at h
  · exact AcquireResult.noConfusion (congrArg Prod.fst h)
  · rename_i hf
    split at h
    · rename_i hany
      rw [Prod.mk.injEq] at h
      obtain ⟨-, h2⟩ := h
      exact ⟨hf, hany, by rw [← h2], by rw [← h2]⟩
    · exact AcquireResult.noConfusion (congrArg Prod.fst h)

theorem acquireRunner_warm_inv {s : PoolState} {c : Nat} {p : PoolState}
    (h : acquireRunner s c = (.warmingUp, p)) : p = s := by
  unfold acquireRunner at h
  split at h
  · exact AcquireResult.noConfusion (congrArg Prod.fst h)
  · split at h
    · exact AcquireResult.noConfusion (congrArg Prod.fst h)
    · exact (congrArg Prod.snd h).symm

theorem get?_restoredRunners_ne (a : Bool) (ck : String) (s : PoolState) (i : Nat)
    {j : Nat} (h : j ≠ i) : (restoredRunners a ck s i).get? j = s.runners.get? j := by
  unfold restoredRunners
  split
  · rfl
  · exact get?_modifyAt_ne _ _ h

theorem restoredRunners_at {a : Bool} {ck : String} {s : PoolState} {i : Nat}
    {r : Runner} (h : s.runners.get? i = some r) :
    ∃ r', (restoredRunners a ck s i).get? i = some r' ∧ r'.locked = r.locked := by
  unfold restoredRunners
  split
  · exact ⟨r, h, rfl⟩
  · rw [setCheckpointAt, get?_modifyAt_self, h]
    exact ⟨_, rfl, rfl⟩

theorem releaseRunner_ok_none_inv {a b : Bool} {ck : String} {s : PoolState} {i : Nat}
    {p : PoolState} (h : releaseRunner a b ck s i = .ok none p) :
    (a || b) = true ∧ s.waitQueue = [] ∧
    p = { runners := setLockedAt (restoredRunners a ck s i) i false, waitQueue := [] } := by
  unfold releaseRunner at h
  split at h
  · rename_i hab
    split at h
    · rename_i hq
      injection h with h1 h2
      exact ⟨hab, hq, h2.symm⟩
    · injection h with h1 h2
      exact Option.noConfusion h1
  · exact ReleaseResult.noConfusion h

theorem releaseRunner_ok_some_inv {a b : Bool} {ck : String} {s : PoolState} {i w : Nat}
    {p : PoolState} (h : releaseRunner a b ck s i = .ok (some w) p) :
    (a || b) = true ∧ s.waitQueue = w :: p.waitQueue ∧
    p.runners = setLockedAt (setLockedAt (restoredRunners a ck s i) i false) i true := by
  unfold releaseRunner at h
  split at h
  · rename_i hab
    split at h
    · injection h with h1 h2
      exact Option.noConfusion h1
    · rename_i w' rest hq
      injection h with h1 h2
      injection h1 with h1
      cases h1
      cases h2
      exact ⟨hab, by rw [hq], rfl⟩
  · exact ReleaseResult.noConfusion h

theorem releaseRunner_failed_inv {a b : Bool} {ck : String} {s : PoolState} {i : Nat}
    {p : PoolState} (h : releaseRunner a b ck s i = .failed p) :
    p = s ∧ a = false ∧ b = false := by
  unfold releaseRunner at h
  split at h
  · split at h
    · exact ReleaseResult.noConfusion h
    · exact ReleaseResult.noConfusion h
  · rename_i hab
    rw [Bool.or_eq_true] at hab
    push_neg at hab
    injection h with h1
    exact ⟨h1.symm, Bool.eq_false_iff.mpr hab.1, Bool.eq_false_iff.mpr hab.2⟩

theorem lockFailRecover_none_inv {s : PoolState} {i : Nat} {p : PoolState}
    (h : lockFailRecover s i = (none, p)) :
    s.waitQueue = [] ∧
    p = { runners := setLockedAt s.runners i false, waitQueue := [] } := by
  unfold lockFailRecover at h
  split at h
  · rename_i hq
    injection h with h1 h2
    exact ⟨hq, h2.symm⟩
  · injection h with h1 h2
    exact Option.noConfusion h1

theorem lockFailRecover_some_inv {s : PoolState} {i w : Nat} {p : PoolState}
    (h : lockFailRecover s i = (some w, p)) :
    s.waitQueue = w :: p.waitQueue ∧
    p.runners = setLockedAt (setLockedAt s.runners i false) i true := by
  unfold lockFailRecover at h
  split at h
  · injection h with h1 h2
    exact Option.noConfusion h1
  · rename_i w' rest hq
    injection h with h1 h2
    injection h1 with h1
    cases h1
    cases h2
    exact ⟨by rw [hq], rfl⟩

theorem initDone_none_inv {s : PoolState} {i : Nat} {p : PoolState}
    (h : initDone s i = (none, p)) :
    s.waitQueue = [] ∧
    p = { runners := setReadyAt s.runners i true, waitQueue := [] } := by
  unfold initDone at h
  split at h
  · rename_i hq
    injection h with h1 h2
    exact ⟨hq, h2.symm⟩
  · injection h with h1 h2
    exact Option.noConfusion h1

theorem initDone_some_inv {s : PoolState} {i w : Nat} {p : PoolState}
    (h : initDone s i = (some w, p)) :
    s.waitQueue = w :: p.waitQueue ∧
    p.runners = setLockedAt (setReadyAt s.runners i true) i true := by
  unfold initDone at h
  split at h
  · injection h with h1 h2
    exact Option.noConfusion h1
  · rename_i w' rest hq
    injection h with h1 h2
    injection h1 with h1
    cases h1
    cases h2
    exact ⟨by rw [hq], rfl⟩

theorem slot_unique {holds : List (Nat × Nat)}
    (hp : holds.Pairwise (fun p q => p.2 ≠ q.2)) {c i : Nat} (hmem : (c, i) ∈ holds) :
    ∀ q ∈ holds.erase (c, i), q.2 ≠ i := by
  induction holds with
  | nil => simp
  | cons x tl ih =>
    rw [List.pairwise_cons] at hp
    obtain ⟨hx, htl⟩ := hp
    by_cases hxe : x = (c, i)
    · subst hxe
      rw [List.erase_cons_head]
      intro q hq h2
      exact (hx q hq) (by rw [h2])
    · have hci : (c, i) ∈ tl :=
        List.mem_of_ne_of_mem (fun hh => hxe hh.symm) hmem
      rw [List.erase_cons_tail]
      · intro q hq
        rcases List.mem_cons.mp hq with rfl | hq'
        · exact fun h2 => (hx _ hci) (by rw [h2])
        · exact ih htl hci q hq'
      · simp [hxe]

theorem holds_erase_locked {rs' : List Runner} {σ : SysState} {c i : Nat}
    (hlock : ∀ p ∈ σ.holds, ∃ r, σ.pool.runners.get? p.2 = some r ∧ r.locked = true)
    (hpair : σ.holds.Pairwise (fun p q => p.2 ≠ q.2))
    (hmem : (c, i) ∈ σ.holds)
    (hsame : ∀ j, j ≠ i → rs'.get? j = σ.pool.runners.get? j) :
    ∀ q ∈ σ.holds.erase (c, i), ∃ r, rs'.get? q.2 = some r ∧ r.locked = true := by
  intro q hq
  obtain ⟨r, hrq, hlq⟩ := hlock q (List.mem_of_mem_erase hq)
  have hne := slot_unique hpair hmem q hq
  exact ⟨r, by rw [hsame q.2 hne, hrq], hlq⟩

theorem Inv_preserved {σ σ' : SysState} (hinv : Inv σ) (hstep : Step σ σ') : Inv σ' := by
  obtain ⟨hlock, hpair⟩ := hinv
  cases hstep with
  | acq c i p h =>
    obtain ⟨hf, hr, -⟩ := acquireRunner_acquired_inv h
    obtain ⟨r0, hr0, -, hl0⟩ := findAvail_some hf
    have hslot : ∀ q ∈ σ.holds, i ≠ q.2 := by
      intro q hq he
      obtain ⟨r, hrq, hlq⟩ := hlock q hq
      rw [← he, hr0] at hrq
      injection hrq with hrr
      rw [hrr, hlq] at hl0
      exact Bool.noConfusion hl0
    constructor
    · intro q hq
      rcases List.mem_cons.mp hq with rfl | hq'
      · refine ⟨{ r0 with locked := true }, ?_, rfl⟩
        show p.runners.get? i = _
        rw [hr, setLockedAt, get?_modifyAt_self, hr0]
        rfl
      · obtain ⟨r, hrq, hlq⟩ := hlock q hq'
        refine ⟨r, ?_, hlq⟩
        show p.runners.get? q.2 = some r
        rw [hr, setLockedAt, get?_modifyAt_ne _ _ (fun he => hslot q hq' he.symm), hrq]
    · exact List.pairwise_cons.mpr ⟨hslot, hpair⟩
  | acqQueued c p h =>
    obtain ⟨-, -, hr, -⟩ := acquireRunner_queued_inv h
    exact ⟨fun q hq => by rw [show p.runners = _ from hr]; exact hlock q hq, hpair⟩
  | acqWarm c p h =>
    cases acquireRunner_warm_inv h
    exact ⟨hlock, hpair⟩
  | relIdle c i a b ck p hmem h =>
    obtain ⟨-, -, hp⟩ := releaseRunner_ok_none_inv h
    subst hp
    refine ⟨holds_erase_locked hlock hpair hmem ?_, hpair.sublist (List.erase_sublist _ _)⟩
    intro j hj
    show (setLockedAt (restoredRunners a ck σ.pool i) i false).get? j = _
    rw [setLockedAt, get?_modifyAt_ne _ _ hj, get?_restoredRunners_ne _ _ _ _ hj]
  | relHand c i w a b ck p hmem h =>
    obtain ⟨-, -, hr⟩ := releaseRunner_ok_some_inv h
    obtain ⟨r, hri, -⟩ := hlock _ hmem
    obtain ⟨r1, hr1, -⟩ := @restoredRunners_at a ck σ.pool i _ hri
    constructor
    · intro q hq
      rcases List.mem_cons.mp hq with rfl | hq'
      · refine ⟨{ r1 with locked := true }, ?_, rfl⟩
        show p.runners.get? i = _
        rw [hr]
        simp only [setLockedAt]
        rw [get?_modifyAt_self, get?_modifyAt_self, hr1]
        rfl
      · have hne := slot_unique hpair hmem q hq'
        obtain ⟨r2, hrq, hlq⟩ := hlock q (List.mem_of_mem_erase hq')
        refine ⟨r2, ?_, hlq⟩
        show p.runners.get? q.2 = some r2
        rw [hr]
        simp only [setLockedAt]
        rw [get?_modifyAt_ne _ _ hne, get?_modifyAt_ne _ _ hne,
          get?_restoredRunners_ne _ _ _ _ hne, hrq]
    · exact List.pairwise_cons.mpr
        ⟨fun q hq => fun he => (slot_unique hpair hmem q hq) he.symm,
         hpair.sublist (List.erase_sublist _ _)⟩
  | relFail c i a b ck p hmem h =>
    obtain ⟨hp, -, -⟩ := releaseRunner_failed_inv h
    subst hp
    exact ⟨hlock, hpair⟩
  | lockFailIdle c i p hmem h =>
    obtain ⟨-, hp⟩ := lockFailRecover_none_inv h
    subst hp
    refine ⟨holds_erase_locked hlock hpair hmem ?_, hpair.sublist (List.erase_sublist _ _)⟩
    intro j hj
    exact get?_modifyAt_ne _ _ hj
  | lockFailHand c i w p hmem h =>
    obtain ⟨-, hr⟩ := lockFailRecover_some_inv h
    obtain ⟨r, hri, -⟩ := hlock _ hmem
    constructor
    · intro q hq
      rcases List.mem_cons.mp hq with rfl | hq'
      · refine ⟨{ r with locked := true }, ?_, rfl⟩
        show p.runners.get? i = _
        rw [hr]
        simp only [setLockedAt]
        rw [get?_modifyAt_self, get?_modifyAt_self, hri]
        rfl
      · have hne := slot_unique hpair hmem q hq'
        obtain ⟨r2, hrq, hlq⟩ := hlock q (List.mem_of_mem_erase hq')
        refine ⟨r2, ?_, hlq⟩
        show p.runners.get? q.2 = some r2
        rw [hr]
        simp only [setLockedAt]
        rw [get?_modifyAt_ne _ _ hne, get?_modifyAt_ne _ _ hne, hrq]
    · exact List.pairwise_cons.mpr
        ⟨fun q hq => fun he => (slot_unique hpair hmem q hq) he.symm,
         hpair.sublist (List.erase_sublist _ _)⟩
  | initIdle i p hlen hfree h =>
    obtain ⟨-, hp⟩ := initDone_none_inv h
    subst hp
    constructor
    · intro q hq
      obtain ⟨r, hrq, hlq⟩ := hlock q hq
      have hne : q.2 ≠ i := fun he => hfree q.1 (by rw [← he]; exact hq)
      refine ⟨r, ?_, hlq⟩
      show (setReadyAt σ.pool.runners i true).get? q.2 = some r
      rw [setReadyAt, get?_modifyAt_ne _ _ hne, hrq]
    · exact hpair
  | initHand i w p hlen hfree h =>
    obtain ⟨-, hr⟩ := initDone_some_inv h
    obtain ⟨r, hri⟩ : ∃ r, σ.pool.runners.get? i = some r := by
      rw [List.get?_eq_get hlen]
      exact ⟨_, rfl⟩
    constructor
    · intro q hq
      rcases List.mem_cons.mp hq with rfl | hq'
      · refine ⟨{ { r with ready := true } with locked := true }, ?_, rfl⟩
        show p.runners.get? i = _
        rw [hr, setLockedAt, get?_modifyAt_self, setReadyAt, get?_modifyAt_self, hri]
        rfl
      · obtain ⟨r2, hrq, hlq⟩ := hlock q hq'
        have hne : q.2 ≠ i := fun he => hfree q.1 (by rw [← he]; exact hq')
        refine ⟨r2, ?_, hlq⟩
        show p.runners.get? q.2 = some r2
        rw [hr, setLockedAt, get?_modifyAt_ne _ _ hne, setReadyAt, get?_modifyAt_ne _ _ hne, hrq]
    · refine List.pairwise_cons.mpr ⟨fun q hq he => hfree q.1 ?_, hpair⟩
      have h2 : (q.1, i) = q := by
        rw [show i = q.2 from he, Prod.mk.eta]
      rw [h2]
      exact hq

theorem findAvail_isSome {rs : List Runner} {j : Nat} {r : Runner}
    (hj : rs.get? j = some r) (hav : isAvailable r = true) :
    ∃ k, findAvail rs = some k := by
  induction rs generalizing j with
  | nil => cases hj
  | cons x tl ih =>
    by_cases hx : isAvailable x = true
    · exact ⟨0, by simp [findAvail, hx]⟩
    · cases j with
      | zero =>
        injection hj with hh
        rw [hh] at hx
        exact absurd hav hx
      | succ n =>
        obtain ⟨k, hk⟩ := ih hj
        exact ⟨k + 1, by simp [findAvail, hx, hk]⟩

/-- An example runner record for concrete instances. -/
def exRunner (nm : String) (lk rd : Bool) : Runner :=
  { name := nm, locked := lk, ready := rd, checkpointId := some "v1" }

/-- Fresh two-slot pool, both runners provisioned and idle. -/
def exSys0 : SysState :=
  { pool :=
      { runners := [exRunner "jane-runner-0" false true, exRunner "jane-runner-1" false true]
        waitQueue := [] }
    holds := [] }

/-- `exSys0` after caller 5 acquired slot 0. -/
def exSys1 : SysState :=
  { pool :=
      { runners := [exRunner "jane-runner-0" true true, exRunner "jane-runner-1" false true]
        waitQueue := [] }
    holds := [(5, 0)] }

/-- Claim C1: mutual exclusion on runners.  In every state reachable by
interleaved `acquireRunner` / hand-off / `release` steps from a state
satisfying the ghost invariant: every held slot is locked from selection
until release, no slot is held by two callers at once, at most K (= pool
size) runners are locked, `acquireRunner` never returns a runner whose
`locked` flag is already set, and when every runner is locked no caller can
be served by `acquireRunner` (it can only queue or fail), i.e. excess
callers are served only after a release hands a runner over. -/
theorem runner_mutual_exclusion {σ0 σ : SysState} (h0 : Inv σ0)
    (hreach : Relation.ReflTransGen Step σ0 σ) :
    ((∀ q ∈ σ.holds, ∃ r, σ.pool.runners.get? q.2 = some r ∧ r.locked = true) ∧
      σ.holds.Pairwise (fun p q => p.2 ≠ q.2)) ∧
    σ.pool.runners.countP (fun r => r.locked) ≤ σ.pool.runners.length ∧
    (∀ c i p, acquireRunner σ.pool c = (.acquired i, p) →
      ∃ r, σ.pool.runners.get? i = some r ∧ r.locked = false ∧ r.ready = true) ∧
    (∀ c, (∀ r ∈ σ.pool.runners, r.locked = true) →
      ∀ i p, acquireRunner σ.pool c ≠ (.acquired i, p)) := by
  have hinv : Inv σ := by
    induction hreach with
    | refl => exact h0
    | tail hsteps hstep ih => exact Inv_preserved ih hstep
  refine ⟨hinv, List.countP_le_length _, ?_, ?_⟩
  · intro c i p h
    obtain ⟨hf, -, -⟩ := acquireRunner_acquired_inv h
    obtain ⟨r, hr, hready, hlocked⟩ := findAvail_some hf
    exact ⟨r, hr, hlocked, hready⟩
  · intro c hall i p h
    obtain ⟨hf, -, -⟩ := acquireRunner_acquired_inv h
    obtain ⟨r, hr, -, hlocked⟩ := findAvail_some hf
    have hmem : r ∈ σ.pool.runners := List.get?_mem hr
    rw [hall r hmem] at hlocked
    exact Bool.noConfusion hlocked

/-- Claim C1 witness: the mutual-exclusion consequences at the concrete
state reached from the fresh two-runner pool by one acquire of caller 5. -/
theorem runner_mutual_exclusion_witness :
    ((∀ q ∈ exSys1.holds, ∃ r, exSys1.pool.runners.get? q.2 = some r ∧ r.locked = true) ∧
      exSys1.holds.Pairwise (fun p q => p.2 ≠ q.2)) ∧
    exSys1.pool.runners.countP (fun r => r.locked) ≤ exSys1.pool.runners.length ∧
    (∀ c i p, acquireRunner exSys1.pool c = (.acquired i, p) →
      ∃ r, exSys1.pool.runners.get? i = some r ∧ r.locked = false ∧ r.ready = true) ∧
    (∀ c, (∀ r ∈ exSys1.pool.runners, r.locked = true) →
      ∀ i p, acquireRunner exSys1.pool c ≠ (.acquired i, p)) :=
  runner_mutual_exclusion (by decide)
    (Relation.ReflTransGen.single (Step.acq exSys0 5 0 exSys1.pool (by decide)))

/-- Claim C5: warm-up fail-fast.  When no runner in the pool is ready,
`acquireRunner` fails immediately with the warming-up error and the state —
in particular the wait queue — is unchanged: the caller is not enqueued. -/
theorem acquire_warmup_fail_fast (s : PoolState) (c : Nat)
    (h : ∀ r ∈ s.runners, r.ready = false) :
    acquireRunner s c = (.warmingUp, s) := by
  have hany : s.runners.any (fun r => r.ready) = false := by
    rw [List.any_eq_false]
    intro r hr
    simp [h r hr]
  unfold acquireRunner
  rw [findAvail_none_of_not_ready h, hany]
  rfl

/-- A one-slot pool whose runner is still provisioning. -/
def exWarmPool : PoolState :=
  { runners := [{ name := "jane-runner-0", locked := false, ready := false, checkpointId := none }]
    waitQueue := [] }

/-- Claim C5 witness: the warming-up failure on the concrete cold pool. -/
theorem acquire_warmup_fail_fast_witness :
    acquireRunner exWarmPool 3 = (.warmingUp, exWarmPool) :=
  acquire_warmup_fail_fast exWarmPool 3 (by decide)

/-- `executeInSprite` (sprite-executor.ts): acquire a runner, run the body
(write settings, exec amp, parse its output) and release in the `finally`
block, so a body failure still releases; a failure thrown by `release`
itself makes the whole call fail.  `bodyOk` abstracts the body, `restoreOk`
and `rebuildOk` the internals of `release`.  A queued caller is still
pending, modelled here as no effect beyond the enqueue. -/
def executeInSprite (bodyOk restoreOk rebuildOk : Bool) (ck : String)
    (s : PoolState) (c : Nat) : Bool × PoolState :=
  match acquireRunner s c with
  | (.acquired i, s1) =>
    match releaseRunner restoreOk rebuildOk ck s1 i with
    | .ok _ p => (bodyOk, p)
    | .failed p => (false, p)
  | (.warmingUp, s1) => (false, s1)
  | (.queued, s1) => (false, s1)

/-- A one-slot pool whose runner is ready and currently locked by a caller. -/
def exRelPool : PoolState :=
  { runners := [{ name := "jane-runner-0", locked := true, ready := true, checkpointId := some "v1" }]
    waitQueue := [] }

/-- Claim C2 counterexample: an invocation of the `release` closure on which
the runner's `locked` flag is NOT cleared.  When the checkpoint restore
fails and the rebuild triggered during release also fails, `release`
rethrows before reaching `runner.locked = false`: the call ends with the
lock still set and no hand-off. -/
theorem release_lock_stuck_cex :
    releaseRunner false false "v2" exRelPool 0 = .failed exRelPool ∧
    exRelPool.runners.get? 0 =
      some { name := "jane-runner-0", locked := true, ready := true, checkpointId := some "v1" } :=
  ⟨rfl, rfl⟩

theorem get?_restoredRunners_isSome (a : Bool) (ck : String) (s : PoolState) (i : Nat) :
    ((restoredRunners a ck s i).get? i).isSome = (s.runners.get? i).isSome := by
  unfold restoredRunners
  split
  · rfl
  · rw [setCheckpointAt, get?_modifyAt_self]
    cases s.runners.get? i <;> rfl

theorem map_const_of_isSome {o o' : Option Runner} (h : o.isSome = o'.isSome) (b : Bool) :
    o.map (fun _ => b) = o'.map (fun _ => b) := by
  cases o <;> cases o' <;> simp_all

/-- Claim C2 (amended): every invocation of the `release` closure that runs
to completion — the checkpoint restore succeeds, or the rebuild it triggers
succeeds — ends with the runner's `locked` flag false and, if the wait queue
is non-empty, hands that exact runner to the next queued waiter (who relocks
it), bypassing the ready-pool scan; when the restore and the rebuild both
fail, `release` propagates the error and the lock is not cleared; and when
the caller's execution throws after a successful acquire, release still runs
in the `finally` block, after which the runner is unlocked and a subsequent
`acquireRunner` succeeds. -/
theorem release_clears_lock_amended (a b : Bool) (ck : String) (s : PoolState) (i : Nat) :
    ((a || b) = true → s.waitQueue = [] →
      ∃ p, releaseRunner a b ck s i = .ok none p ∧
        (p.runners.get? i).map Runner.locked = (s.runners.get? i).map (fun _ => false) ∧
        p.waitQueue = []) ∧
    ((a || b) = true → ∀ w rest, s.waitQueue = w :: rest →
      ∃ p, releaseRunner a b ck s i = .ok (some w) p ∧
        (p.runners.get? i).map Runner.locked = (s.runners.get? i).map (fun _ => true) ∧
        p.waitQueue = rest) ∧
    (a = false → b = false → releaseRunner a b ck s i = .failed s) ∧
    (∀ (c : Nat) (i2 : Nat) (s1 : PoolState) (r : Runner) (b2 : Bool),
      acquireRunner s c = (.acquired i2, s1) →
      s.waitQueue = [] →
      s.runners.get? i2 = some r →
      ∃ p, executeInSprite false true b2 ck s c = (false, p) ∧
        p.runners.get? i2 = some { r with locked := false } ∧
        ∃ k s2, acquireRunner p 0 = (.acquired k, s2)) := by
  refine ⟨?_, ?_, ?_, ?_⟩
  · intro hab hq
    refine ⟨{ runners := setLockedAt (restoredRunners a ck s i) i false, waitQueue := [] },
      ?_, ?_, rfl⟩
    · unfold releaseRunner
      rw [hab, hq]
      rfl
    · show ((setLockedAt (restoredRunners a ck s i) i false).get? i).map Runner.locked = _
      rw [setLockedAt, get?_modifyAt_self, Option.map_map]
      exact map_const_of_isSome (get?_restoredRunners_isSome a ck s i) false
  · intro hab w rest hq
    refine ⟨{ runners := setLockedAt (setLockedAt (restoredRunners a ck s i) i false) i true,
              waitQueue := rest }, ?_, ?_, rfl⟩
    · unfold releaseRunner
      rw [hab, hq]
      rfl
    · show ((setLockedAt (setLockedAt (restoredRunners a ck s i) i false) i true).get? i).map
        Runner.locked = _
      simp only [setLockedAt]
      rw [get?_modifyAt_self, get?_modifyAt_self, Option.map_map, Option.map_map]
      exact map_const_of_isSome (get?_restoredRunners_isSome a ck s i) true
  · intro ha hb
    unfold releaseRunner
    rw [ha, hb]
    rfl
  · intro c i2 s1 r b2 hacq hq hri
    obtain ⟨hf, hr1, hq1⟩ := acquireRunner_acquired_inv hacq
    have hready : r.ready = true := by
      obtain ⟨r0, hri0, hready0, -⟩ := findAvail_some hf
      rw [hri0] at hri
      injection hri with hh
      rw [← hh]
      exact hready0
    have hrel : releaseRunner true b2 ck s1 i2 =
        .ok none { runners := setLockedAt (restoredRunners true ck s1 i2) i2 false
                   waitQueue := [] } := by
      unfold releaseRunner
      rw [hq1, hq]
      rfl
    have hpr : (setLockedAt (restoredRunners true ck s1 i2) i2 false).get? i2 =
        some { r with locked := false } := by
      show (setLockedAt s1.runners i2 false).get? i2 = _
      rw [setLockedAt, get?_modifyAt_self, hr1, setLockedAt, get?_modifyAt_self, hri]
      rfl
    refine ⟨{ runners := setLockedAt (restoredRunners true ck s1 i2) i2 false, waitQueue := [] },
      ?_, hpr, ?_⟩
    · unfold executeInSprite
      rw [hacq]
      show (match releaseRunner true b2 ck s1 i2 with
        | ReleaseResult.ok _ p => (false, p)
        | ReleaseResult.failed p => (false, p)) = _
      rw [hrel]
    · have hav : isAvailable { r with locked := false } = true := by
        simp [isAvailable, hready]
      obtain ⟨k, hk⟩ := findAvail_isSome hpr hav
      refine ⟨k,
        { runners := setLockedAt (setLockedAt (restoredRunners true ck s1 i2) i2 false) k true
          waitQueue := [] }, ?_⟩
      unfold acquireRunner
      rw [hk]

/-- A one-slot pool: the ready runner is locked and callers 8 and 9 wait. -/
def exHandPool : PoolState :=
  { runners := [{ name := "jane-runner-0", locked := true, ready := true, checkpointId := some "v1" }]
    waitQueue := [8, 9] }

/-- A one-slot pool whose ready runner is idle. -/
def exRelIdlePool : PoolState :=
  { runners := [{ name := "jane-runner-0", locked := false, ready := true, checkpointId := some "v1" }]
    waitQueue := [] }

/-- Claim C2 witness: on the concrete pool with waiters 8 and 9, a
completing release hands the runner, still locked, to waiter 8 and dequeues
it; and on the fresh one-runner pool an execution that throws after acquire
still ends with the runner unlocked and reacquirable. -/
theorem release_clears_lock_amended_witness :
    (∃ p, releaseRunner true false "v1" exHandPool 0 = .ok (some 8) p ∧
      (p.runners.get? 0).map Runner.locked =
        (exHandPool.runners.get? 0).map (fun _ => true) ∧
      p.waitQueue = [9]) ∧
    releaseRunner false false "v1" exHandPool 0 = .failed exHandPool ∧
    (∃ p, executeInSprite false true false "v1" exRelIdlePool 0 = (false, p) ∧
      p.runners.get? 0 =
        some { name := "jane-runner-0", locked := false, ready := true,
               checkpointId := some "v1" } ∧
      ∃ k s2, acquireRunner p 0 = (.acquired k, s2)) := by
  refine ⟨?_, ?_, ?_⟩
  · exact (release_clears_lock_amended true false "v1" exHandPool 0).2.1 rfl 8 [9] rfl
  · exact (release_clears_lock_amended false false "v1" exHandPool 0).2.2.1 rfl rfl
  · exact (release_clears_lock_amended true false "v1" exRelIdlePool 0).2.2.2 0 0
      { runners := [{ name := "jane-runner-0", locked := true, ready := true,
                      checkpointId := some "v1" }], waitQueue := [] }
      { name := "jane-runner-0", locked := false, ready := true, checkpointId := some "v1" }
      false (by decide) rfl rfl

/-- Claim C3: FIFO fairness of the wait queue.  When every ready runner is
locked, caller A and then caller B are appended to the tail of the wait
queue in that order; a single completing release of a held runner hands that
exact runner to A (not B) and leaves B queued, and the following release
hands its runner to B: waiters are dequeued head-first, first-in-first-out. -/
theorem wait_queue_fifo (s : PoolState) (A B i : Nat) (b b2 : Bool) (ck ck2 : String)
    (hnoavail : findAvail s.runners = none)
    (hready : s.runners.any (fun r => r.ready) = true)
    (hq : s.waitQueue = []) :
    ∃ s1 s2,
      acquireRunner s A = (.queued, s1) ∧ s1.waitQueue = [A] ∧
      acquireRunner s1 B = (.queued, s2) ∧ s2.waitQueue = [A, B] ∧
      ∃ p, releaseRunner true b ck s2 i = .ok (some A) p ∧ p.waitQueue = [B] ∧
        ∃ p2, releaseRunner true b2 ck2 p i = .ok (some B) p2 ∧ p2.waitQueue = [] := by
  obtain ⟨rs, wq⟩ := s
  have hq2 : wq = [] := hq
  subst hq2
  refine ⟨⟨rs, [A]⟩, ⟨rs, [A, B]⟩, ?_, rfl, ?_, rfl, ?_⟩
  · unfold acquireRunner
    rw [show findAvail rs = none from hnoavail, show rs.any (fun r => r.ready) = true from hready]
    rfl
  · unfold acquireRunner
    rw [show findAvail rs = none from hnoavail, show rs.any (fun r => r.ready) = true from hready]
    rfl
  · exact ⟨_, rfl, rfl, _, rfl, rfl⟩

/-- Claim C3 witness: the FIFO hand-off sequence on the concrete one-runner
pool, with caller 8 enqueued before caller 9. -/
theorem wait_queue_fifo_witness :
    ∃ s1 s2,
      acquireRunner exRelPool 8 = (.queued, s1) ∧ s1.waitQueue = [8] ∧
      acquireRunner s1 9 = (.queued, s2) ∧ s2.waitQueue = [8, 9] ∧
      ∃ p, releaseRunner true false "v1" s2 0 = .ok (some 8) p ∧ p.waitQueue = [9] ∧
        ∃ p2, releaseRunner true false "v2" p 0 = .ok (some 9) p2 ∧ p2.waitQueue = [] :=
  wait_queue_fifo exRelPool 8 9 0 false false "v1" "v2" (by decide) (by decide) rfl

/-- One pending debounce window of debouncer.ts (`PendingMessage`) for a
fixed key: the accumulated fragment texts in arrival order, the callers
whose promises await the combined result (the resolver-wrapping chain in
`debounce` fans one combined string out to every one of them), and the
absolute time at which the pending `setTimeout` timer fires. -/
structure DebEntry where
  texts : List String
  callers : List Nat
  deadline : Nat
  deriving DecidableEq

/-- `flush(key)`: delete the pending entry and resolve every waiter with the
fragments joined by a double newline (`texts.join("\n\n")`). -/
def flushEntry : Option DebEntry → List (List Nat × String) × Option DebEntry
  | none => ([], none)
  | some e => ([(e.callers, String.intercalate "\n\n" e.texts)], none)

/-- The timed calls `debounce(key, text)` for one fixed key, processed in
time order; each event is `(time, callerId, text)`.  `setTimeout` semantics
at this granularity: a pending timer with deadline `d` fires (flushing) no
later than any call at time `t ≥ d`, while a call at `t < d` joins the
pending window, appends its fragment, and resets the deadline to `t + D`
(`clearTimeout` plus a fresh `setTimeout`).  After the last call, the
remaining timer fires.  Returns the flushes in order; each flush carries the
callers it resolves and the one combined text they all receive. -/
def debounceRun (D : Nat) : Option DebEntry → List (Nat × Nat × String) →
    List (List Nat × String)
  | st, [] => (flushEntry st).1
  | none, (t, c, x) :: rest => debounceRun D (some ⟨[x], [c], t + D⟩) rest
  | some e, (t, c, x) :: rest =>
    if t < e.deadline then
      debounceRun D (some ⟨e.texts ++ [x], e.callers ++ [c], t + D⟩) rest
    else
      (e.callers, String.intercalate "\n\n" e.texts) ::
        debounceRun D (some ⟨[x], [c], t + D⟩) rest

/-- Claim C4: debounce coalescing.  Three fragments "a", "b", "c" on one key
whose inter-arrival gaps are smaller than the window `D` produce exactly one
flush whose combined text is "a\n\nb\n\nc" (arrival order, double-newline
separated) and which resolves all three callers with that same text; spaced
farther apart than the window they produce three separate flushes (the
timer resets on every fragment); and a flush always deletes the pending
entry. -/
theorem debounce_coalescing (D t1 t2 t3 c1 c2 c3 : Nat)
    (h12 : t1 ≤ t2) (h23 : t2 ≤ t3) :
    (t2 < t1 + D → t3 < t2 + D →
      debounceRun D none [(t1, c1, "a"), (t2, c2, "b"), (t3, c3, "c")] =
        [([c1, c2, c3], "a\n\nb\n\nc")]) ∧
    (t1 + D ≤ t2 → t2 + D ≤ t3 →
      debounceRun D none [(t1, c1, "a"), (t2, c2, "b"), (t3, c3, "c")] =
        [([c1], "a"), ([c2], "b"), ([c3], "c")]) ∧
    (∀ st, (flushEntry st).2 = none) := by
  refine ⟨?_, ?_, ?_⟩
  · intro hb hc
    simp only [debounceRun]
    rw [if_pos hb, if_pos hc]
    rfl
  · intro hb hc
    simp only [debounceRun]
    rw [if_neg (by omega), if_neg (by omega)]
    rfl
  · intro st
    cases st <;> rfl

/-- Claim C4 witness: the two schedules at the default 1500 ms window —
gaps of 100 ms coalesce into one flush, gaps of 2000 ms give three. -/
theorem debounce_coalescing_witness :
    (debounceRun 1500 none [(0, 1, "a"), (100, 2, "b"), (200, 3, "c")] =
      [([1, 2, 3], "a\n\nb\n\nc")]) ∧
    (debounceRun 1500 none [(0, 1, "a"), (2000, 2, "b"), (4000, 3, "c")] =
      [([1], "a"), ([2], "b"), ([3], "c")]) ∧
    (∀ st, (flushEntry st).2 = none) := by
  obtain ⟨h1, h2, h3⟩ := debounce_coalescing 1500 0 100 200 1 2 3 (by decide) (by decide)
  obtain ⟨h4, h5, -⟩ := debounce_coalescing 1500 0 2000 4000 1 2 3 (by decide) (by decide)
  exact ⟨h1 (by decide) (by decide), h5 (by decide) (by decide), h3⟩

/-- `haystack.includes(needle)` — substring test on the character lists. -/
def strContains (hay sub : String) : Bool := decide (sub.data <:+: hay.data)

/-- Fixed text for authentication/configuration trouble (missing API key). -/
def MSG_NOT_CONFIGURED : String :=
  "I'm not configured properly. Please check the AMP_API_KEY."

/-- Fixed text for authentication/configuration trouble (bad token). -/
def MSG_AUTH_FAILED : String :=
  "Authentication failed. Please check the bot configuration."

/-- Fixed text for rate limiting. -/
def MSG_RATE_LIMITED : String :=
  "I'm being rate limited. Please try again in a moment."

/-- Fixed text for timeouts. -/
def MSG_TIMED_OUT : String :=
  "The request timed out. Try a simpler task or try again."

/-- Fixed generic fallback text. -/
def MSG_GENERIC : String :=
  "Something went wrong. Please try again."

/-- The complete set of user-facing messages `formatErrorForUser` can emit:
authentication/configuration (two variants), rate-limited, timed-out, and
the generic fallback. -/
def sanitizedMessages : List String :=
  [MSG_NOT_CONFIGURED, MSG_AUTH_FAILED, MSG_RATE_LIMITED, MSG_TIMED_OUT, MSG_GENERIC]

/-- `formatErrorForUser` (index.ts): route on substrings of the raw error
message, returning only fixed sanitized texts and never interpolating the
raw message. -/
def formatErrorForUser (message : String) : String :=
  if strContains message "No API key" || strContains message "login flow" then
    MSG_NOT_CONFIGURED
  else if strContains message "invalid_auth" || strContains message "token" then
    MSG_AUTH_FAILED
  else if strContains message "rate limit" || strContains message "too many" then
    MSG_RATE_LIMITED
  else if strContains message "timeout" || strContains message "timed out" then
    MSG_TIMED_OUT
  else
    MSG_GENERIC

/-- Claim C6: error sanitization.  Every error surfaced to the end user maps
to one of the fixed sanitized message categories, whatever the input error
text; consequently the user-facing string never contains the raw internal
error text, unless that raw text already happens to be a fragment of the
fixed boilerplate itself. -/
theorem error_sanitization (m : String) :
    formatErrorForUser m ∈ sanitizedMessages ∧
    (sanitizedMessages.all (fun s => !strContains s m) = true →
      strContains (formatErrorForUser m) m = false) := by
  have hmem : formatErrorForUser m ∈ sanitizedMessages := by
    unfold formatErrorForUser
    split
    · simp [sanitizedMessages]
    · split
      · simp [sanitizedMessages]
      · split
        · simp [sanitizedMessages]
        · split
          · simp [sanitizedMessages]
          · simp [sanitizedMessages]
  refine ⟨hmem, ?_⟩
  intro hall
  rw [List.all_eq_true] at hall
  have hthis := hall _ hmem
  simpa using hthis

/-- Claim C6 witness: a raw timeout error from the sprite layer is shown as
the fixed timed-out message and the raw text does not leak into it. -/
theorem error_sanitization_witness :
    formatErrorForUser "Sprites exec timeout after 600000ms" ∈ sanitizedMessages ∧
    strContains (formatErrorForUser "Sprites exec timeout after 600000ms")
      "Sprites exec timeout after 600000ms" = false := by
  obtain ⟨h1, h2⟩ := error_sanitization "Sprites exec timeout after 600000ms"
  exact ⟨h1, h2 (by decide)⟩

/-- `INIT_RETRY_BASE_MS` of sprite-runners.ts. -/
def INIT_RETRY_BASE_MS : Nat := 5000

/-- `INIT_RETRY_MAX_MS` of sprite-runners.ts. -/
def INIT_RETRY_MAX_MS : Nat := 120000

/-- The delay computed in the catch branch of `initRunnerWithRetry` after
the failed attempt numbered `attempt` (attempts count from 1):
`Math.min(INIT_RETRY_BASE_MS * Math.pow(2, attempt - 1), INIT_RETRY_MAX_MS)`. -/
def retryDelay (attempt : Nat) : Nat :=
  min (INIT_RETRY_BASE_MS * 2 ^ (attempt - 1)) INIT_RETRY_MAX_MS

/-- State of the unconditional `for (let attempt = 1; ; attempt++)` loop of
`initRunnerWithRetry`: the next attempt number, the delays waited so far in
order, and whether `initRunner` has succeeded (after which the runner is
marked ready and the loop returns).  The loop has no exit besides success. -/
structure RetryState where
  attempt : Nat
  delays : List Nat
  ready : Bool
  deriving DecidableEq

/-- One iteration of the retry loop; `ok k` states whether the k-th
`initRunner` attempt succeeds. -/
def retryStep (ok : Nat → Bool) (st : RetryState) : RetryState :=
  if st.ready then st
  else if ok st.attempt then { st with ready := true }
  else
    { attempt := st.attempt + 1, delays := st.delays ++ [retryDelay st.attempt], ready := false }

/-- The loop state after `n` iterations starting from attempt 1. -/
def runRetry (ok : Nat → Bool) (n : Nat) : RetryState :=
  (retryStep ok)^[n] { attempt := 1, delays := [], ready := false }

theorem runRetry_all_fail (ok : Nat → Bool) :
    ∀ n, (∀ k, 1 ≤ k → k ≤ n → ok k = false) →
    runRetry ok n =
      { attempt := n + 1,
        delays := (List.range n).map (fun j => retryDelay (j + 1)), ready := false } := by
  intro n
  induction n with
  | zero => intro _; rfl
  | succ m ih =>
    intro hfail
    have hm := ih (fun k h1 h2 => hfail k h1 (Nat.le_succ_of_le h2))
    unfold runRetry at hm ⊢
    rw [Function.iterate_succ_apply', hm]
    unfold retryStep
    rw [hfail (m + 1) (Nat.le_add_left 1 m) (Nat.le_refl _)]
    simp [List.range_succ]

/-- Claim C7: provisioning retry backoff.  `initRunnerWithRetry` never gives
up: after any number n of consecutive failures the loop is still retrying,
with the next attempt numbered n+1 and with the recorded delay after the
k-th failed attempt equal to min(5000 * 2^(k-1), 120000) ms; the delay
doubles from a 5000 ms base through attempt 5 and is capped at 120000 ms
from attempt 6 on. -/
theorem retry_backoff_unbounded (ok : Nat → Bool) (n : Nat)
    (hfail : ∀ k, 1 ≤ k → k ≤ n → ok k = false) :
    runRetry ok n =
      { attempt := n + 1,
        delays := (List.range n).map (fun j => retryDelay (j + 1)), ready := false } ∧
    (∀ k, 1 ≤ k → retryDelay k = min (5000 * 2 ^ (k - 1)) 120000) ∧
    (∀ k, 1 ≤ k → k ≤ 5 → retryDelay k = 5000 * 2 ^ (k - 1)) ∧
    (∀ k, 6 ≤ k → retryDelay k = 120000) := by
  refine ⟨runRetry_all_fail ok n hfail, fun k _ => rfl, ?_, ?_⟩
  · intro k h1 h5
    interval_cases k <;> decide
  · intro k hk
    have h32 : (32 : Nat) ≤ 2 ^ (k - 1) := by
      calc (32 : Nat) = 2 ^ 5 := by norm_num
        _ ≤ 2 ^ (k - 1) := Nat.pow_le_pow_right (by norm_num) (by omega)
    have hge : 120000 ≤ 5000 * 2 ^ (k - 1) := by
      calc (120000 : Nat) ≤ 5000 * 32 := by norm_num
        _ ≤ 5000 * 2 ^ (k - 1) := Nat.mul_le_mul_left _ h32
    exact Nat.min_eq_right hge

/-- Claim C7 witness: seven straight failures give delays
5000, 10000, 20000, 40000, 80000, 120000, 120000 and the loop is still
going with attempt 8 pending. -/
theorem retry_backoff_unbounded_witness :
    runRetry (fun _ => false) 7 =
      { attempt := 8,
        delays := [5000, 10000, 20000, 40000, 80000, 120000, 120000], ready := false } ∧
    retryDelay 3 = 20000 ∧ retryDelay 10 = 120000 := by
  obtain ⟨h1, h2, h3, h4⟩ :=
    retry_backoff_unbounded (fun _ => false) 7 (fun k hk1 hk2 => rfl)
  refine ⟨by rw [h1]; rfl, ?_, h4 10 (by norm_num)⟩
  rw [h3 3 (by norm_num) (by norm_num)]
  norm_num

/-- One durable session record (sessions.ts `interface Session`):
`ampThreadId`, optional `spriteName`, `userId`, `createdAt`, `updatedAt`
(ISO strings) and the optional `lastSlackContextTs`. -/
structure Session where
  ampThreadId : String
  spriteName : Option String
  userId : String
  createdAt : String
  updatedAt : String
  lastSlackContextTs : Option String
  deriving DecidableEq

/-- Module state of sessions.ts: the in-memory map (JavaScript object — key
order is insertion order, modelled as an association list) and the `dirty`
flag. -/
structure SessionStore where
  sessions : List (String × Session)
  dirty : Bool
  deriving DecidableEq

/-- `getKey(channelId, threadTs)`: the template string `channelId:threadTs`. -/
def getKey (channelId threadTs : String) : String :=
  channelId ++ ":" ++ threadTs

/-- Association-list read, mirroring `store.sessions[key]`. -/
def lookupSession : List (String × Session) → String → Option Session
  | [], _ => none
  | (k0, v0) :: rest, k => if k0 = k then some v0 else lookupSession rest k

/-- JavaScript object property assignment `store.sessions[key] = v`:
replace in place for an existing key, append for a new one. -/
def upsert : List (String × Session) → String → Session → List (String × Session)
  | [], k, v => [(k, v)]
  | (k0, v0) :: rest, k, v =>
    if k0 = k then (k, v) :: rest else (k0, v0) :: upsert rest k v

/-- `set(channelId, threadTs, ampThreadId, userId, spriteName?)` at time
`now`: build a brand-new record — only `createdAt` is carried over from an
existing session (`existing?.createdAt ?? now`); the object literal has no
`lastSlackContextTs` property, so that field is dropped. -/
def setSession (st : SessionStore) (channelId threadTs ampThreadId userId : String)
    (spriteName : Option String) (now : String) : SessionStore :=
  let key := getKey channelId threadTs
  let existing := lookupSession st.sessions key
  let sess : Session :=
    { ampThreadId := ampThreadId
      spriteName := spriteName
      userId := userId
      createdAt := (existing.map Session.createdAt).getD now
      updatedAt := now
      lastSlackContextTs := none }
  { sessions := upsert st.sessions key sess, dirty := true }

/-- `updateLastSlackContextTs`: field-level mutator on an existing session;
bumps `updatedAt` and marks the store dirty; missing key is a no-op. -/
def updateLastSlackContextTs (st : SessionStore) (channelId threadTs ts now : String) :
    SessionStore :=
  let key := getKey channelId threadTs
  match lookupSession st.sessions key with
  | none => st
  | some e =>
    { sessions := upsert st.sessions key { e with lastSlackContextTs := some ts, updatedAt := now }
      dirty := true }

theorem lookupSession_upsert (l : List (String × Session)) (k : String) (v : Session) :
    lookupSession (upsert l k v) k = some v := by
  induction l with
  | nil => simp [upsert, lookupSession]
  | cons kv rest ih =>
    obtain ⟨k0, v0⟩ := kv
    by_cases hk : k0 = k
    · simp [upsert, hk, lookupSession]
    · simp [upsert, hk, lookupSession, ih]

/-- Claim C10: overwrite semantics of `set`.  When a session already exists
at the key, `set` keeps only its `createdAt`; `ampThreadId`, `userId` and
`spriteName` are unconditionally replaced by the arguments (so omitting
`spriteName` erases a previously stored name), and `lastSlackContextTs` is
dropped because the stored record is rebuilt from scratch. -/
theorem set_overwrite (st : SessionStore) (ch th amp usr : String)
    (sp : Option String) (now : String) (old : Session)
    (h : lookupSession st.sessions (getKey ch th) = some old) :
    lookupSession (setSession st ch th amp usr sp now).sessions (getKey ch th) =
      some { ampThreadId := amp, spriteName := sp, userId := usr,
             createdAt := old.createdAt, updatedAt := now, lastSlackContextTs := none } := by
  unfold setSession
  rw [lookupSession_upsert, h]
  rfl

/-- A store holding one session with a sprite name and a Slack context
marker, as left by `set` followed by `updateLastSlackContextTs`. -/
def exStore : SessionStore :=
  updateLastSlackContextTs
    (setSession { sessions := [], dirty := false } "C1" "111.22" "T-amp-1" "U7"
      (some "jane-pool-1") "2024-01-01T00:00:00.000Z")
    "C1" "111.22" "333.44" "2024-01-02T00:00:00.000Z"

/-- Claim C10 witness: on the concrete store, a second `set` with
`spriteName` omitted keeps only `createdAt`: the sprite name is erased and
the `lastSlackContextTs` written by `updateLastSlackContextTs` is gone. -/
theorem set_overwrite_witness :
    lookupSession
        (setSession exStore "C1" "111.22" "T-amp-2" "U8" none
          "2024-01-03T00:00:00.000Z").sessions
        (getKey "C1" "111.22") =
      some { ampThreadId := "T-amp-2", spriteName := none, userId := "U8",
             createdAt := "2024-01-01T00:00:00.000Z",
             updatedAt := "2024-01-03T00:00:00.000Z", lastSlackContextTs := none } :=
  set_overwrite exStore "C1" "111.22" "T-amp-2" "U8" none "2024-01-03T00:00:00.000Z"
    { ampThreadId := "T-amp-1", spriteName := some "jane-pool-1", userId := "U7",
      createdAt := "2024-01-01T00:00:00.000Z", updatedAt := "2024-01-02T00:00:00.000Z",
      lastSlackContextTs := some "333.44" } (by decide)

/-- The per-entry loop of `cleanup` with a fixed cutoff: delete (and count)
every session whose parsed `updatedAt` is strictly below the cutoff, keep
the rest.  `parse` abstracts `new Date(iso).getTime()` — integer
milliseconds, the unit of all the arithmetic in `cleanup`. -/
def cleanupSessions (parse : String → Int) (cutoff : Int) :
    List (String × Session) → Nat × List (String × Session)
  | [] => (0, [])
  | (k, s) :: rest =>
    let r := cleanupSessions parse cutoff rest
    if parse s.updatedAt < cutoff then (r.1 + 1, r.2) else (r.1, (k, s) :: r.2)

/-- `cleanup(maxAgeDays)` (sessions.ts): the cutoff is
`Date.now() - maxAgeDays * 24 * 60 * 60 * 1000`; returns the removed count
and the surviving entries. -/
def sessionsCleanup (parse : String → Int) (nowMs maxAgeDays : Int)
    (l : List (String × Session)) : Nat × List (String × Session) :=
  cleanupSessions parse (nowMs - maxAgeDays * 24 * 60 * 60 * 1000) l

theorem cleanupSessions_eq (parse : String → Int) (cutoff : Int)
    (l : List (String × Session)) :
    cleanupSessions parse cutoff l =
      (l.countP (fun kv => decide (parse kv.2.updatedAt < cutoff)),
       l.filter (fun kv => !decide (parse kv.2.updatedAt < cutoff))) := by
  induction l with
  | nil => rfl
  | cons kv rest ih =>
    obtain ⟨k, s⟩ := kv
    by_cases hc : parse s.updatedAt < cutoff
    · simp [cleanupSessions, ih, hc, List.countP_cons, List.filter_cons]
    · simp [cleanupSessions, ih, hc, List.countP_cons, List.filter_cons]

theorem countP_add_filter_not (p : (String × Session) → Bool)
    (l : List (String × Session)) :
    l.countP p + (l.filter (fun kv => !p kv)).length = l.length := by
  induction l with
  | nil => rfl
  | cons kv rest ih =>
    cases hp : p kv with
    | true =>
      simp [List.countP_cons, List.filter_cons, hp]
      omega
    | false =>
      simp [List.countP_cons, List.filter_cons, hp]
      omega

/-- Claim C8: cleanup boundary.  `cleanup(maxAgeDays)` removes exactly the
sessions whose `updatedAt` is strictly older than the cutoff
`now - maxAgeDays` days (in milliseconds, the resolution of `getTime()`): an
entry exactly at the cutoff is retained, an entry any amount (one
millisecond) older is removed, and the returned count equals the number of
sessions removed. -/
theorem cleanup_boundary (parse : String → Int) (nowMs maxAgeDays : Int)
    (l : List (String × Session)) (k : String) (sess : Session)
    (hmem : (k, sess) ∈ l) :
    (parse sess.updatedAt = nowMs - maxAgeDays * 24 * 60 * 60 * 1000 →
      (k, sess) ∈ (sessionsCleanup parse nowMs maxAgeDays l).2) ∧
    (parse sess.updatedAt < nowMs - maxAgeDays * 24 * 60 * 60 * 1000 →
      (k, sess) ∉ (sessionsCleanup parse nowMs maxAgeDays l).2) ∧
    (sessionsCleanup parse nowMs maxAgeDays l).1 =
      l.countP
        (fun kv => decide (parse kv.2.updatedAt < nowMs - maxAgeDays * 24 * 60 * 60 * 1000)) ∧
    (sessionsCleanup parse nowMs maxAgeDays l).1 +
      (sessionsCleanup parse nowMs maxAgeDays l).2.length = l.length := by
  unfold sessionsCleanup
  rw [cleanupSessions_eq]
  refine ⟨?_, ?_, rfl, countP_add_filter_not _ l⟩
  · intro heq
    exact List.mem_filter.mpr ⟨hmem, by simp [heq]⟩
  · intro hlt hmem2
    have hpred := (List.mem_filter.mp hmem2).2
    simp [hlt] at hpred

/-- Concrete clock for the cleanup witness: the epoch instant for the entry
exactly at the cutoff, one millisecond earlier for the stale entry. -/
def exParse (s : String) : Int :=
  if s = "1970-01-01T00:00:00.000Z" then 0 else -1

/-- The session exactly at the cleanup cutoff. -/
def exSessEdge : Session :=
  { ampThreadId := "T-1", spriteName := none, userId := "U1",
    createdAt := "1969-12-01T00:00:00.000Z", updatedAt := "1970-01-01T00:00:00.000Z",
    lastSlackContextTs := none }

/-- A session strictly older than the cleanup cutoff. -/
def exSessOld : Session :=
  { ampThreadId := "T-2", spriteName := none, userId := "U2",
    createdAt := "1969-12-01T00:00:00.000Z", updatedAt := "1969-12-31T23:59:59.999Z",
    lastSlackContextTs := none }

/-- Claim C8 witness: with a 30-day cutoff landing exactly on the epoch, the
entry at the cutoff survives, the one-millisecond-older entry is removed,
and the count is the number removed. -/
theorem cleanup_boundary_witness :
    ("edge", exSessEdge) ∈
      (sessionsCleanup exParse 2592000000 30 [("edge", exSessEdge), ("old", exSessOld)]).2 ∧
    ("old", exSessOld) ∉
      (sessionsCleanup exParse 2592000000 30 [("edge", exSessEdge), ("old", exSessOld)]).2 ∧
    (sessionsCleanup exParse 2592000000 30 [("edge", exSessEdge), ("old", exSessOld)]).1 +
      (sessionsCleanup exParse 2592000000 30
        [("edge", exSessEdge), ("old", exSessOld)]).2.length = 2 := by
  obtain ⟨he, -, -, hc⟩ :=
    cleanup_boundary exParse 2592000000 30 [("edge", exSessEdge), ("old", exSessOld)]
      "edge" exSessEdge (by decide)
  obtain ⟨-, ho, -, -⟩ :=
    cleanup_boundary exParse 2592000000 30 [("edge", exSessEdge), ("old", exSessOld)]
      "old" exSessOld (by decide)
  exact ⟨he (by decide), ho (by decide), hc⟩

/-- Reading one string property of a parsed JSON object. -/
def fieldGet : List (String × String) → String → Option String
  | [], _ => none
  | (k, v) :: rest, key => if k = key then some v else fieldGet rest key

/-- `JSON.stringify` of one Session object, at the JSON object-tree level:
the property list in insertion order (`ampThreadId`, `spriteName`, `userId`,
`createdAt`, `updatedAt`, then `lastSlackContextTs` when
`updateLastSlackContextTs` has added it); properties holding `undefined` —
the optional fields — are omitted from the output.  All present values are
strings, for which stringify-then-parse is the identity on the tree. -/
def encodeSession (s : Session) : List (String × String) :=
  ("ampThreadId", s.ampThreadId) ::
    ((match s.spriteName with
      | some v => [("spriteName", v)]
      | none => []) ++
     [("userId", s.userId), ("createdAt", s.createdAt), ("updatedAt", s.updatedAt)] ++
     (match s.lastSlackContextTs with
      | some v => [("lastSlackContextTs", v)]
      | none => []))

/-- Reading one Session back from its parsed JSON object: the required
fields must be present, an absent optional property reads as `undefined`
(`none`). -/
def decodeSession (l : List (String × String)) : Option Session :=
  match fieldGet l "ampThreadId", fieldGet l "userId", fieldGet l "createdAt",
      fieldGet l "updatedAt" with
  | some a, some u, some c, some t =>
    some { ampThreadId := a, spriteName := fieldGet l "spriteName", userId := u,
           createdAt := c, updatedAt := t,
           lastSlackContextTs := fieldGet l "lastSlackContextTs" }
  | _, _, _, _ => none

theorem decodeSession_encodeSession (s : Session) :
    decodeSession (encodeSession s) = some s := by
  obtain ⟨a, sp, u, c, t, ts⟩ := s
  cases sp <;> cases ts <;> rfl

/-- `save()` (sessions.ts): when dirty, write the whole store as the single
document `{ sessions: { "<channelId>:<threadTs>": Session, ... } }` —
modelled at the JSON object level as the list of (key, encoded session)
properties; when not dirty, write nothing. -/
def saveStore (st : SessionStore) : Option (List (String × List (String × String))) :=
  if st.dirty then some (st.sessions.map (fun kv => (kv.1, encodeSession kv.2))) else none

/-- Reading the entries of the `sessions` object back, key by key. -/
def decodeEntries : List (String × List (String × String)) →
    Option (List (String × Session))
  | [] => some []
  | (k, obj) :: rest =>
    match decodeSession obj, decodeEntries rest with
    | some s, some tl => some ((k, s) :: tl)
    | _, _ => none

/-- `load()` of a saved document into a fresh store. -/
def loadStore (doc : List (String × List (String × String))) : Option SessionStore :=
  (decodeEntries doc).map (fun l => { sessions := l, dirty := false })

theorem decodeEntries_encode (l : List (String × Session)) :
    decodeEntries (l.map (fun kv => (kv.1, encodeSession kv.2))) = some l := by
  induction l with
  | nil => rfl
  | cons kv rest ih =>
    obtain ⟨k, s⟩ := kv
    simp [decodeEntries, decodeSession_encodeSession, ih]

/-- Claim C9: session store round-trip.  For every dirty store state,
`save()` writes the single document `{ sessions: {...} }` and `load()` of
that document into a fresh store reproduces every session key and every
Session field exactly — timestamps and optional fields included (absent
optional properties read back as `undefined`). -/
theorem session_round_trip (st : SessionStore) (hd : st.dirty = true) :
    ∃ doc, saveStore st = some doc ∧
      loadStore doc = some { sessions := st.sessions, dirty := false } := by
  refine ⟨st.sessions.map (fun kv => (kv.1, encodeSession kv.2)), ?_, ?_⟩
  · unfold saveStore
    rw [hd]
    rfl
  · unfold loadStore
    rw [decodeEntries_encode]
    rfl

/-- Claim C9 witness: the concrete store built by `set` and
`updateLastSlackContextTs` (dirty, one session with every field populated)
round-trips exactly. -/
theorem session_round_trip_witness :
    ∃ doc, saveStore exStore = some doc ∧
      loadStore doc = some { sessions := exStore.sessions, dirty := false } :=
  session_round_trip exStore (by decide)

end Janebot
